import Mathlib

/-!
Verification of the Linereader streaming inspection pipeline.

The development shallowly embeds the pipeline's core:
* the sliding-window filter of `FilterThreshold` (filter_threshold.cpp):
  a 9-tap convolution kernel applied to a deque of bytes, emitting one
  thresholded decision per qualifying ingest, with an end-of-stream drain;
* the FIFO `BlockingQueue` (blocking_queue.h) as a list with head pops;
* the CSV reading of `DataGenerator` (data_generator.cpp): per-cell
  `std::stoi` parsing, the column bound `m`, and the pair-forming buffer;
* the producer/coordinator/consumer handshake of main.cpp as a small
  labelled transition system.

Bytes are embedded as `Nat` (values of `uint8_t`), the `double`
arithmetic of the filter as exact rationals `ℚ`, and C++ `int` as `Int`
with the explicit bounds of a 32-bit int where the code can overflow.
-/

/-- Decision emitted for one window center: `filtered >= tv` means defect. -/
inductive Decision where
  | DEFECT
  | NO_DEFECT

deriving instance DecidableEq, Repr for Decision

/-- `FilterThreshold::WINDOW_SIZE` (filter_threshold.h). -/
def WINDOW_SIZE : Nat := 9

/-- `FilterThreshold::PAST_ELEMENTS` (filter_threshold.h). -/
def PAST_ELEMENTS : Nat := 4

/-- `FilterThreshold::FILTER_WINDOW` (filter_threshold.cpp line 9), the
doubles embedded as exact rationals. -/
def FILTER_WINDOW : List ℚ := [0.05, 0.1, 0.15, 0.2, 0.25, 0.2, 0.15, 0.1, 0.05]

/-- The accumulation loop of `FilterThreshold::process_element`:
`for i in [0, WINDOW_SIZE): filtered += double(buf[i]) * FILTER_WINDOW[i]`. -/
def filteredValue (buf : List Nat) : ℚ :=
  (List.range WINDOW_SIZE).foldl
    (fun acc i => acc + (buf.getD i 0 : ℚ) * FILTER_WINDOW.getD i 0) 0

/-- The threshold test of `process_element`: `filtered_value >= threshold_value_`. -/
def thresholdDecision (tv : ℚ) (filtered : ℚ) : Decision :=
  if filtered ≥ tv then .DEFECT else .NO_DEFECT

/-- State of one `FilterThreshold`: the byte deque `data_buffer_` plus the
ordered log of emitted decisions (center byte value, decision). -/
structure FTState where
  buffer : List Nat
  decisions : List (Nat × Decision)

deriving instance DecidableEq, Repr for FTState

/-- `FilterThreshold::process_element`: return unchanged below
`WINDOW_SIZE`, else emit the decision for the head-aligned window, whose
subject is `data_buffer_[PAST_ELEMENTS]`, then `pop_front`. -/
def processElement (tv : ℚ) (s : FTState) : FTState :=
  if s.buffer.length < WINDOW_SIZE then s
  else
    { buffer := s.buffer.tail,
      decisions := s.decisions ++
        [(s.buffer.getD PAST_ELEMENTS 0, thresholdDecision tv (filteredValue s.buffer))] }

/-- One byte arriving at the consumer (`FilterThreshold::run`, the body
handling one element of a popped pair): `push_back`, then
`process_element` when the buffer reached `WINDOW_SIZE`. -/
def ingest (tv : ℚ) (s : FTState) (v : Nat) : FTState :=
  let s' : FTState := { s with buffer := s.buffer ++ [v] }
  if s'.buffer.length ≥ WINDOW_SIZE then processElement tv s' else s'

/-- Ingest a whole byte sequence in order. -/
def ingestAll (tv : ℚ) (s : FTState) (vs : List Nat) : FTState :=
  vs.foldl (ingest tv) s

/-- A fresh filter fed the byte sequence `vs`. -/
def runFilter (tv : ℚ) (vs : List Nat) : FTState :=
  ingestAll tv ⟨[], []⟩ vs

/-- The post-loop drain of `FilterThreshold::run`:
`while (data_buffer_.size() >= WINDOW_SIZE) process_element();`, written
with explicit fuel (each iteration shortens the buffer by one). -/
def drainLoop (tv : ℚ) : Nat → FTState → FTState
  | 0, s => s
  | fuel + 1, s =>
    if s.buffer.length ≥ WINDOW_SIZE then drainLoop tv fuel (processElement tv s) else s

/-- `drain`: run the drain loop; the buffer length bounds its iterations. -/
def drainState (tv : ℚ) (s : FTState) : FTState :=
  drainLoop tv s.buffer.length s

/-! ## The handoff queue (blocking_queue.h)

`BlockingQueue<T>` guards a `std::queue<T>` with a mutex; its sequential
content is a list with pushes at the tail and pops at the head. -/

/-- A sample pair `std::pair<uint8_t, uint8_t>`. -/
def SamplePair : Type := Nat × Nat

deriving instance DecidableEq, Repr for SamplePair

/-- `BlockingQueue::push`: append at the tail; never fails. -/
def qPush (q : List SamplePair) (x : SamplePair) : List SamplePair := q ++ [x]

/-- `BlockingQueue::try_pop`: `(none, q)` on empty, else remove the head. -/
def qTryPop (q : List SamplePair) : Option SamplePair × List SamplePair :=
  match q with
  | [] => (none, [])
  | x :: t => (some x, t)

/-- `BlockingQueue::pop`: blocks on empty (no result), else removes the head. -/
def qPop (q : List SamplePair) : Option (SamplePair × List SamplePair) :=
  match q with
  | [] => none
  | x :: t => some (x, t)

/-- Push a whole sequence in order. -/
def qPushAll (q : List SamplePair) (xs : List SamplePair) : List SamplePair :=
  xs.foldl qPush q

/-- Poll `n` times with `try_pop`, collecting the popped elements in order. -/
def qDrain : Nat → List SamplePair → List SamplePair × List SamplePair
  | 0, q => ([], q)
  | n + 1, q =>
    match qTryPop q with
    | (some x, q') =>
      let r := qDrain n q'
      (x :: r.1, r.2)
    | (none, q') => ([], q')

/-! ## CSV reading (data_generator.cpp)

`DataGenerator::read_csv_pair` splits each line on `','`, parses each
cell with `std::stoi`, truncates the parsed `int` to `uint8_t` by the
narrowing cast, honours the declared column count `m`, and forms pairs
through `csv_buffer_`, discarding a trailing unpaired value at EOF. -/

/-- Bounds of a 32-bit C++ `int`, the target type of `std::stoi`. -/
def INT_MAX : Int := 2147483647

/-- Lower bound of a 32-bit C++ `int`. -/
def INT_MIN : Int := -2147483648

/-- The whitespace characters `std::stoi` (via `strtol`) skips. -/
def isSpaceChar (c : Char) : Bool :=
  c = ' ' || c = '\t' || c = '\n' || c = '\x0b' || c = '\x0c' || c = '\r'

/-- Value of a base-10 digit string. -/
def digitsToNat (ds : List Char) : Nat :=
  ds.foldl (fun a c => a * 10 + (c.toNat - 48)) 0

/-- Outcome of `std::stoi` on one cell: a value, or one of the two
exceptions `data_generator.cpp` catches. -/
inductive StoiResult where
  | ok (n : Int)
  | invalidArgument
  | outOfRange

deriving instance DecidableEq, Repr for StoiResult

/-- Optional leading sign of a `strtol` subject sequence. -/
def signSplit (cs : List Char) : Int × List Char :=
  match cs with
  | '-' :: t => (-1, t)
  | '+' :: t => (1, t)
  | _ => (1, cs)

/-- `std::stoi`: skip whitespace, read an optional sign and the longest
digit run (anything after it is ignored); no digits raises
`invalid_argument`, a value outside `int` raises `out_of_range`. -/
def stoiModel (s : String) : StoiResult :=
  let cs := s.toList.dropWhile isSpaceChar
  let sr := signSplit cs
  let ds := sr.2.takeWhile (fun c => c.isDigit)
  if ds = [] then .invalidArgument
  else
    let n : Int := sr.1 * (digitsToNat ds : Int)
    if n < INT_MIN ∨ INT_MAX < n then .outOfRange else .ok n

/-- `static_cast<uint8_t>(int)`: reduction modulo 256. -/
def toByte (n : Int) : Nat := (n % 256).toNat

/-- One cell of a row: `static_cast<uint8_t>(std::stoi(cell))`, or
`none` when the cell is skipped because `std::stoi` threw. -/
def parseCell (cell : String) : Option Nat :=
  match stoiModel cell with
  | .ok n => some (toByte n)
  | _ => none

/-- Result of reading one CSV line: the values kept, the cells skipped
with a warning, and whether the short-row warning fired. -/
structure RowResult where
  values : List Nat
  badCells : List String
  shortWarn : Bool

deriving instance DecidableEq, Repr for RowResult

/-- One iteration of the cell loop in `read_csv_pair`: the cell is
parsed only while `count < m || m <= 0`; `count` always increments. -/
def rowStep (m : Int) (acc : List Nat × List String × Int) (cell : String) :
    List Nat × List String × Int :=
  match acc with
  | (vals, bad, count) =>
    if count < m ∨ m ≤ 0 then
      match parseCell cell with
      | some v => (vals ++ [v], bad, count + 1)
      | none => (vals, bad ++ [cell], count + 1)
    else (vals, bad, count + 1)

/-- The whole cell loop of one line, plus the short-row warning
`m_ > 0 && count < m_`. -/
def parseRow (m : Int) (cells : List String) : RowResult :=
  match cells.foldl (rowStep m) ([], [], 0) with
  | (vals, bad, count) => ⟨vals, bad, decide (0 < m ∧ count < m)⟩

/-- The values a cell list yields when every cell is examined. -/
def valsOf (cells : List String) : List Nat := cells.filterMap parseCell

/-- The cells that are skipped with a warning when every cell is examined. -/
def badOf (cells : List String) : List String :=
  cells.filter (fun c => (parseCell c).isNone)

/-- Split a line on the `','` delimiter the way repeated
`std::getline(ss, cell, ',')` does, before the trailing-delimiter fixup:
this is the plain split, one (possibly empty) cell per separator gap. -/
def splitChars : List Char → List (List Char)
  | [] => [[]]
  | ',' :: rest => [] :: splitChars rest
  | c :: rest =>
    match splitChars rest with
    | [] => [[c]]
    | cell :: cells => (c :: cell) :: cells

/-- The cells `std::getline(ss, cell, ',')` yields from one line: none
for an empty line, and no trailing empty cell after a final `','`
(there `getline` hits end of stream and fails). -/
def splitLine (s : String) : List String :=
  match s.toList with
  | [] => []
  | cs =>
    let cells := (splitChars cs).map (fun l => String.mk l)
    if cs.getLast? = some ',' then cells.dropLast else cells

/-- `DataGenerator` CSV state: the unread lines of the file (the model
takes the file to end with a newline, so `getline` fails exactly once,
after the last line), `current_row_values_`, `current_row_idx_`,
`csv_buffer_`, and the stream's eof bit. -/
structure GenState where
  rows : List String
  rowVals : List Nat
  idx : Nat
  buf : List Nat
  eofFlag : Bool

deriving instance DecidableEq, Repr for GenState

/-- The fill loop of `read_csv_pair` (`while (csv_buffer_.size() < 2)`):
take the next value of the current row, else read and parse a new line,
push its first value when it has one, break on eof. Written with fuel;
each iteration consumes a row value or a line. -/
def fillLoop (m : Int) : Nat → GenState → GenState
  | 0, s => s
  | fuel + 1, s =>
    if s.buf.length < 2 then
      if s.idx < s.rowVals.length then
        fillLoop m fuel ⟨s.rows, s.rowVals, s.idx + 1, s.buf ++ [s.rowVals.getD s.idx 0], s.eofFlag⟩
      else
        match s.rows with
        | [] => ⟨[], s.rowVals, s.idx, s.buf, true⟩
        | line :: rest =>
          let vals := (parseRow m (splitLine line)).values
          if 0 < vals.length then
            fillLoop m fuel ⟨rest, vals, 1, s.buf ++ [vals.getD 0 0], s.eofFlag⟩
          else if s.eofFlag = true ∧ vals.length = 0 then
            ⟨rest, vals, 0, s.buf, s.eofFlag⟩
          else
            fillLoop m fuel ⟨rest, vals, 0, s.buf, s.eofFlag⟩
    else s

/-- Fuel that dominates the fill loop's iteration count: every iteration
consumes a pending row value or a line (a line of `n` characters yields
at most `n + 1` values). -/
def genFuel (s : GenState) : Nat :=
  s.rowVals.length + s.rows.foldl (fun a line => a + line.toList.length + 2) 0 + 4

/-- What one `read_csv_pair` call produced. -/
inductive ReadOutcome where
  | pair (a b : Nat)
  | notice (leftover : Nat)
  | noData

deriving instance DecidableEq, Repr for ReadOutcome

/-- `DataGenerator::read_csv_pair`: fill the buffer; with two buffered
values pop and push them as a pair (returns true); with one value left
at eof and the row exhausted, discard it with a notice (returns false);
else return false with the state kept. -/
def readCsvPair (m : Int) (s : GenState) : ReadOutcome × GenState :=
  let t := fillLoop m (genFuel s) s
  match t.buf with
  | a :: b :: rest => (.pair a b, ⟨t.rows, t.rowVals, t.idx, rest, t.eofFlag⟩)
  | [a] =>
    if t.eofFlag = true ∧ t.rowVals.length ≤ t.idx then
      (.notice a, ⟨t.rows, t.rowVals, t.idx, [], t.eofFlag⟩)
    else (.noData, t)
  | [] => (.noData, t)

/-- The producer loop of `DataGenerator::run` in CSV mode: call
`read_csv_pair` until it returns false; collect the pushed pairs and any
value discarded by the trailing notice. -/
def genRun (m : Int) : Nat → GenState → List (Nat × Nat) × List Nat
  | 0, _ => ([], [])
  | fuel + 1, s =>
    match readCsvPair m s with
    | (.pair a b, s') =>
      let r := genRun m fuel s'
      ((a, b) :: r.1, r.2)
    | (.notice a, _) => ([], [a])
    | (.noData, _) => ([], [])

/-- A freshly constructed CSV-mode generator on a file with the given lines. -/
def initGen (lines : List String) : GenState := ⟨lines, [], 0, [], false⟩

/-! ## The pipeline handshake (main.cpp and FilterThreshold::run)

The coordinator joins the producer thread, then sets
`producer_is_finished`; the consumer polls the queue, ingests pairs, and
leaves its loop only when a poll came back empty with the flag set and
the queue empty, after which it drains the buffer. The interleaving of
the three threads is a labelled transition system. -/

/-- Global pipeline state: the pairs the producer has yet to push, the
queue content, whether the producer's run loop has exited, the
`producer_is_finished` flag, the consumer's filter state, and whether
the consumer has left its processing loop. -/
structure PipeState where
  pending : List (Nat × Nat)
  channel : List (Nat × Nat)
  producerExited : Bool
  finished : Bool
  fstate : FTState
  stopped : Bool

deriving instance DecidableEq, Repr for PipeState

/-- One interleaved step of the pipeline:
* `produce`: the producer pushes its next pair;
* `producerExit`: the producer's loop exits once its source is done;
* `publishFinished`: the coordinator sets `producer_is_finished`, which
  `main` does only after joining the producer thread;
* `consume`: a consumer poll succeeds and both bytes are ingested;
* `consumerStop`: a poll finds the queue empty with the flag set, the
  consumer leaves its loop and runs the drain loop. -/
inductive PipeStep (tv : ℚ) : PipeState → PipeState → Prop
  | produce (s : PipeState) (p : Nat × Nat) (rest : List (Nat × Nat)) :
      s.pending = p :: rest → s.producerExited = false →
      PipeStep tv s ⟨rest, s.channel ++ [p], false, s.finished, s.fstate, s.stopped⟩
  | producerExit (s : PipeState) :
      s.pending = [] → s.producerExited = false →
      PipeStep tv s ⟨[], s.channel, true, s.finished, s.fstate, s.stopped⟩
  | publishFinished (s : PipeState) :
      s.producerExited = true → s.finished = false →
      PipeStep tv s ⟨s.pending, s.channel, true, true, s.fstate, s.stopped⟩
  | consume (s : PipeState) (p : Nat × Nat) (rest : List (Nat × Nat)) :
      s.channel = p :: rest → s.stopped = false →
      PipeStep tv s
        ⟨s.pending, rest, s.producerExited, s.finished,
          ingest tv (ingest tv s.fstate p.1) p.2, false⟩
  | consumerStop (s : PipeState) :
      s.channel = [] → s.finished = true → s.stopped = false →
      PipeStep tv s
        ⟨s.pending, [], s.producerExited, true, drainState tv s.fstate, true⟩

/-- The pipeline right after `main` starts both threads, with the
producer's source holding the pair sequence `xs`. -/
def initPipe (xs : List (Nat × Nat)) : PipeState :=
  ⟨xs, [], false, false, ⟨[], []⟩, false⟩

/-- Reachability along pipeline steps. -/
def PipeReachable (tv : ℚ) (s t : PipeState) : Prop :=
  Relation.ReflTransGen (PipeStep tv) s t

/-! ## The finished-signal primitive (main.cpp, filter_threshold.h)

`producer_is_finished` is declared `bool` in `main` and carried as a
`bool&` member `producer_finished_flag_` by `FilterThreshold`; kinds of
primitive a one-shot cross-thread signal could use. -/

/-- The kind of primitive carrying a cross-thread one-shot signal. -/
inductive SignalPrimitive where
  | plainBool
  | atomicBool
  | otherFenced

deriving instance DecidableEq, Repr for SignalPrimitive

/-- The primitive the code uses for `producer_is_finished`: a plain
`bool` local in `main` (main.cpp line 95), bound as `bool&
producer_finished_flag_` in `FilterThreshold` (filter_threshold.h line
42); no `std::atomic`, mutex, or fence guards it. -/
def producerFinishedSignalPrimitive : SignalPrimitive := .plainBool

/-- C7 counterexample: the claim asserts the filtered value for nine
bytes equal to 100 is 100.0, via a kernel summing to 1.0; the code's
kernel constants sum to 1.25, so the filtered value is 125. -/
theorem C7_counterexample :
    filteredValue [100, 100, 100, 100, 100, 100, 100, 100, 100] ≠ 100 ∧
    FILTER_WINDOW.sum ≠ 1 := by
  constructor
  · norm_num [filteredValue, FILTER_WINDOW, WINDOW_SIZE, List.range_succ]
  · norm_num [FILTER_WINDOW]

/-- C7 amended: for the fixed kernel and the input of nine bytes equal
to 100, the filtered value is 100 * (kernel sum) = 100 * 1.25 = 125, and
the single emitted decision is NO_DEFECT when TV = 1275 (125 < 1275) and
DEFECT when TV = 50 (125 >= 50). -/
theorem C7_amended_scenario :
    filteredValue [100, 100, 100, 100, 100, 100, 100, 100, 100] = 125 ∧
    FILTER_WINDOW.sum = 125 / 100 ∧
    (runFilter 1275 [100, 100, 100, 100, 100, 100, 100, 100, 100]).decisions
      = [(100, Decision.NO_DEFECT)] ∧
    (runFilter 50 [100, 100, 100, 100, 100, 100, 100, 100, 100]).decisions
      = [(100, Decision.DEFECT)] := by
  refine ⟨?_, by norm_num [FILTER_WINDOW], ?_, ?_⟩ <;>
    norm_num [filteredValue, FILTER_WINDOW, WINDOW_SIZE, PAST_ELEMENTS, List.range_succ,
      runFilter, ingestAll, ingest, processElement, thresholdDecision]

/-! ## Filter lemmas -/

theorem range_window : List.range WINDOW_SIZE = [0, 1, 2, 3, 4, 5, 6, 7, 8] := by rfl

theorem getD_drop_nat (l : List Nat) (n i : Nat) :
    (l.drop n).getD i 0 = l.getD (n + i) 0 := by
  simp [List.getD_eq_getElem?_getD, List.getElem?_drop]

theorem getD_append_left_nat (l l' : List Nat) (i : Nat) (h : i < l.length) :
    (l ++ l').getD i 0 = l.getD i 0 := by
  simp [List.getD_eq_getElem?_getD, List.getElem?_append_left h]

theorem filteredValue_congr {l l' : List Nat}
    (h : ∀ i, i < 9 → l.getD i 0 = l'.getD i 0) :
    filteredValue l = filteredValue l' := by
  simp only [filteredValue, range_window, List.foldl]
  rw [h 0 (by omega), h 1 (by omega), h 2 (by omega), h 3 (by omega), h 4 (by omega),
    h 5 (by omega), h 6 (by omega), h 7 (by omega), h 8 (by omega)]

theorem filteredValue_append (l rest : List Nat) (h : 9 ≤ l.length) :
    filteredValue (l ++ rest) = filteredValue l :=
  filteredValue_congr fun i hi => getD_append_left_nat l rest i (by omega)

/-- An ingest that does not yet fill the window only appends. -/
theorem ingest_small (tv : ℚ) (s : FTState) (v : Nat) (h : s.buffer.length < 8) :
    ingest tv s v = ⟨s.buffer ++ [v], s.decisions⟩ := by
  unfold ingest
  simp only
  rw [if_neg (by simp only [List.length_append, List.length_cons, List.length_nil,
    WINDOW_SIZE]; omega)]

/-- An ingest on a buffer already holding at least 8 samples evaluates
the head-aligned window exactly once and pops the head exactly once. -/
theorem ingest_full (tv : ℚ) (s : FTState) (v : Nat) (h : 8 ≤ s.buffer.length) :
    ingest tv s v = ⟨(s.buffer ++ [v]).tail,
      s.decisions ++ [((s.buffer ++ [v]).getD 4 0,
        thresholdDecision tv (filteredValue (s.buffer ++ [v])))]⟩ := by
  unfold ingest processElement
  simp only
  rw [if_pos (by simp only [List.length_append, List.length_cons, List.length_nil,
      WINDOW_SIZE]; omega),
    if_neg (by simp only [List.length_append, List.length_cons, List.length_nil,
      WINDOW_SIZE]; omega)]
  rfl

/-- After ingesting `vs` into a fresh filter, the buffer is the last
`min (length, 8)` samples and the decisions are, in order, one per
window start `j < length - 8`: subject `vs[j+4]`, threshold test of the
filtered value of the window starting at `j`. -/
theorem runFilter_characterization (tv : ℚ) (vs : List Nat) :
    (runFilter tv vs).buffer = vs.drop (vs.length - 8) ∧
    (runFilter tv vs).decisions =
      (List.range (vs.length - 8)).map (fun j =>
        (vs.getD (j + 4) 0, thresholdDecision tv (filteredValue (vs.drop j)))) := by
  induction vs using List.reverseRecOn with
  | nil => constructor <;> rfl
  | append_singleton p v ih =>
    obtain ⟨ihb, ihd⟩ := ih
    have hrun : runFilter tv (p ++ [v]) = ingest tv (runFilter tv p) v := by
      simp [runFilter, ingestAll, List.foldl_append]
    by_cases hc : p.length < 8
    · have h8 : p.length - 8 = 0 := by omega
      have h8' : (p ++ [v]).length - 8 = 0 := by
        simp only [List.length_append, List.length_cons, List.length_nil]; omega
      have hblen : (runFilter tv p).buffer.length < 8 := by
        rw [ihb, h8, List.drop_zero]; omega
      rw [hrun, ingest_small tv _ v hblen, h8']
      rw [ihb, h8, List.drop_zero]
      constructor
      · rw [List.drop_zero]
      · rw [ihd, h8]
        rfl
    · push_neg at hc
      have hjle : p.length - 8 ≤ p.length := by omega
      have hbuf1 : (runFilter tv p).buffer ++ [v] = (p ++ [v]).drop (p.length - 8) := by
        rw [ihb, List.drop_append_of_le_length hjle]
      have hblen : (runFilter tv p).buffer.length = 8 := by
        rw [ihb, List.length_drop]; omega
      have hlen1 : (p ++ [v]).length - 8 = (p.length - 8) + 1 := by
        simp only [List.length_append, List.length_cons, List.length_nil]; omega
      rw [hrun, ingest_full tv _ v (by rw [hblen]), hbuf1, hlen1]
      constructor
      · rw [List.tail_drop]
      · rw [ihd, List.range_succ, List.map_append]
        dsimp only
        congr 1
        · apply List.map_congr_left
          intro a ha
          have haj : a < p.length - 8 := List.mem_range.mp ha
          have h1 : (p ++ [v]).getD (a + 4) 0 = p.getD (a + 4) 0 :=
            getD_append_left_nat _ _ _ (by omega)
          have h2 : (p ++ [v]).drop a = p.drop a ++ [v] :=
            List.drop_append_of_le_length (by omega)
          have h3 : filteredValue ((p ++ [v]).drop a) = filteredValue (p.drop a) := by
            rw [h2]
            exact filteredValue_append _ _ (by rw [List.length_drop]; omega)
          rw [h1, h3]
        · simp only [List.map_cons, List.map_nil, List.cons.injEq, and_true]
          rw [getD_drop_nat]

/-- The drain loop is the identity once the buffer is below the window size. -/
theorem drainLoop_id (tv : ℚ) (fuel : Nat) (s : FTState) (h : s.buffer.length < 9) :
    drainLoop tv fuel s = s := by
  cases fuel with
  | zero => rfl
  | succ n =>
    unfold drainLoop
    rw [if_neg (by rw [WINDOW_SIZE]; omega)]

/-- `drain` is the identity once the buffer is below the window size. -/
theorem drainState_id (tv : ℚ) (s : FTState) (h : s.buffer.length < 9) :
    drainState tv s = s :=
  drainLoop_id tv s.buffer.length s h

/-- `process_element` on a full buffer shortens it by exactly one. -/
theorem processElement_length (tv : ℚ) (s : FTState) (h : 9 ≤ s.buffer.length) :
    (processElement tv s).buffer.length = s.buffer.length - 1 := by
  unfold processElement
  rw [if_neg (by rw [WINDOW_SIZE]; omega)]
  simp [List.length_tail]

/-- With fuel dominating the excess over 8, the drain loop leaves fewer
than `WINDOW_SIZE` elements. -/
theorem drainLoop_length_lt (tv : ℚ) :
    ∀ (fuel : Nat) (s : FTState), s.buffer.length ≤ fuel + 8 →
      (drainLoop tv fuel s).buffer.length < 9 := by
  intro fuel
  induction fuel with
  | zero =>
    intro s h
    rw [drainLoop]
    omega
  | succ n ih =>
    intro s h
    rw [drainLoop]
    by_cases hc : s.buffer.length ≥ WINDOW_SIZE
    · rw [if_pos hc]
      apply ih
      rw [processElement_length tv s (by rw [WINDOW_SIZE] at hc; omega)]
      omega
    · rw [if_neg hc]
      rw [WINDOW_SIZE] at hc
      omega

/-- After `drain()` fewer than `WINDOW_SIZE` elements remain, whatever
state the filter was in. -/
theorem drainState_length_lt (tv : ℚ) (s : FTState) :
    (drainState tv s).buffer.length < 9 :=
  drainLoop_length_lt tv s.buffer.length s (by omega)

/-- The filter's accumulation loop equals the window convolution sum. -/
theorem filteredValue_eq_sum (l : List Nat) :
    filteredValue l = ∑ k ∈ Finset.range 9, (l.getD k 0 : ℚ) * FILTER_WINDOW.getD k 0 := by
  simp [filteredValue, range_window, Finset.sum_range_succ]

/-- C1: in a byte sequence of length at least 9 ingested in order, the
decision recorded for the sample at index `i` (for `4 ≤ i ≤ len - 5`) is
the `(i-4)`-th emitted decision; its subject is the sample at index `i`
(the 5th element of its head-aligned window) and it is DEFECT exactly
when the 9-element convolution of the window around `i` with the kernel
is at least the threshold. -/
theorem C1_window_correctness (tv : ℚ) (vs : List Nat) (i : Nat)
    (h9 : 9 ≤ vs.length) (h1 : 4 ≤ i) (h2 : i ≤ vs.length - 5) :
    (runFilter tv vs).decisions.getD (i - 4) (0, Decision.NO_DEFECT) =
      (vs.getD i 0,
        if (∑ k ∈ Finset.range 9, (vs.getD (i - 4 + k) 0 : ℚ) * FILTER_WINDOW.getD k 0) ≥ tv
        then Decision.DEFECT else Decision.NO_DEFECT) := by
  obtain ⟨-, hd⟩ := runFilter_characterization tv vs
  rw [hd]
  have hj : i - 4 < vs.length - 8 := by omega
  rw [List.getD_eq_getElem?_getD, List.getElem?_map, List.getElem?_range hj]
  simp only [Option.map_some', Option.getD_some]
  have hi4 : i - 4 + 4 = i := by omega
  rw [hi4]
  congr 1
  rw [thresholdDecision, filteredValue_eq_sum]
  congr 2
  apply Finset.sum_congr rfl
  intro k _
  rw [getD_drop_nat]

/-- C1 witness: the concrete instance at `tv = 3`,
`vs = [1,2,3,4,5,6,7,8,9]`, `i = 4`. -/
theorem C1_window_correctness_witness :
    (runFilter 3 [1, 2, 3, 4, 5, 6, 7, 8, 9]).decisions.getD 0 (0, Decision.NO_DEFECT) =
      (([1, 2, 3, 4, 5, 6, 7, 8, 9] : List Nat).getD 4 0,
        if (∑ k ∈ Finset.range 9,
            (([1, 2, 3, 4, 5, 6, 7, 8, 9] : List Nat).getD k 0 : ℚ) * FILTER_WINDOW.getD k 0) ≥ 3
        then Decision.DEFECT else Decision.NO_DEFECT) :=
  C1_window_correctness 3 [1, 2, 3, 4, 5, 6, 7, 8, 9] 4 (by decide) (by decide) (by decide)

/-- C2 counterexample: ingest a single byte and drain. One element
remains in the buffer, zero decisions were emitted, yet the claim's
formula `max 0 (totalIngested - firstCenterIndex - numDecisions)` =
`max 0 (1 - 4 - 0)` = 0 differs from the residual length 1. -/
theorem C2_counterexample :
    (drainState 0 (runFilter 0 [0])).buffer.length = 1 ∧
    (drainState 0 (runFilter 0 [0])).decisions.length = 0 ∧
    ((drainState 0 (runFilter 0 [0])).buffer.length : ℤ) ≠
      max 0 ((1 : ℤ) - 4 - ((drainState 0 (runFilter 0 [0])).decisions.length : ℤ)) := by
  refine ⟨by decide, by decide, by decide⟩

/-- C2 amended: after `drain()` the residual buffer length is strictly
less than 9, and it equals `min totalIngested 8`: the buffer keeps the
last eight samples (all of them when fewer than eight were ingested),
since every decision pops exactly one head element. -/
theorem C2_amended_residual (tv : ℚ) (vs : List Nat) :
    (drainState tv (runFilter tv vs)).buffer.length < 9 ∧
    (drainState tv (runFilter tv vs)).buffer.length = min vs.length 8 ∧
    (drainState tv (runFilter tv vs)).buffer = vs.drop (vs.length - 8) := by
  obtain ⟨hb, -⟩ := runFilter_characterization tv vs
  have hlen : (runFilter tv vs).buffer.length < 9 := by
    rw [hb, List.length_drop]; omega
  rw [drainState_id tv _ hlen]
  refine ⟨hlen, ?_, hb⟩
  rw [hb, List.length_drop]
  omega

/-- C3: the number of decisions a finite run emits (consumer ingests
followed by the end-of-stream drain, which adds nothing) is exactly
`max 0 (totalSamplesIngested - 8)`; and any single ingest on a buffer
holding at least 8 samples triggers exactly one evaluation (one decision
appended) followed by exactly one head pop. -/
theorem C3_decision_count (tv : ℚ) (vs : List Nat) :
    ((runFilter tv vs).decisions.length : ℤ) = max 0 ((vs.length : ℤ) - 8) ∧
    drainState tv (runFilter tv vs) = runFilter tv vs ∧
    ((drainState tv (runFilter tv vs)).decisions.length : ℤ)
      = max 0 ((vs.length : ℤ) - 8) ∧
    ∀ (s : FTState) (v : Nat), 8 ≤ s.buffer.length →
      (ingest tv s v).decisions = s.decisions ++
        [((s.buffer ++ [v]).getD 4 0, thresholdDecision tv (filteredValue (s.buffer ++ [v])))] ∧
      (ingest tv s v).buffer = (s.buffer ++ [v]).tail := by
  obtain ⟨hb, hd⟩ := runFilter_characterization tv vs
  have hcount : ((runFilter tv vs).decisions.length : ℤ) = max 0 ((vs.length : ℤ) - 8) := by
    rw [hd, List.length_map, List.length_range]
    omega
  have hlen : (runFilter tv vs).buffer.length < 9 := by
    rw [hb, List.length_drop]; omega
  have hdrain : drainState tv (runFilter tv vs) = runFilter tv vs :=
    drainState_id tv _ hlen
  refine ⟨hcount, hdrain, by rw [hdrain]; exact hcount, ?_⟩
  intro s v h
  rw [ingest_full tv s v h]
  exact ⟨rfl, rfl⟩

/-- C3 witness: the concrete instance at `tv = 0` with ten bytes
ingested, and one qualifying ingest on a buffer of eight. -/
theorem C3_decision_count_witness :
    ((runFilter 0 [1, 2, 3, 4, 5, 6, 7, 8, 9, 10]).decisions.length : ℤ)
      = max 0 ((([1, 2, 3, 4, 5, 6, 7, 8, 9, 10] : List Nat).length : ℤ) - 8) ∧
    drainState 0 (runFilter 0 [1, 2, 3, 4, 5, 6, 7, 8, 9, 10])
      = runFilter 0 [1, 2, 3, 4, 5, 6, 7, 8, 9, 10] ∧
    (ingest 0 ⟨[1, 2, 3, 4, 5, 6, 7, 8], []⟩ 9).decisions =
      ([] : List (Nat × Decision)) ++
        [((([1, 2, 3, 4, 5, 6, 7, 8] : List Nat) ++ [9]).getD 4 0,
          thresholdDecision 0 (filteredValue ([1, 2, 3, 4, 5, 6, 7, 8] ++ [9])))] ∧
    (ingest 0 ⟨[1, 2, 3, 4, 5, 6, 7, 8], []⟩ 9).buffer =
      (([1, 2, 3, 4, 5, 6, 7, 8] : List Nat) ++ [9]).tail :=
  ⟨(C3_decision_count 0 [1, 2, 3, 4, 5, 6, 7, 8, 9, 10]).1,
   (C3_decision_count 0 [1, 2, 3, 4, 5, 6, 7, 8, 9, 10]).2.1,
   ((C3_decision_count 0 [1, 2, 3, 4, 5, 6, 7, 8, 9, 10]).2.2.2
     ⟨[1, 2, 3, 4, 5, 6, 7, 8], []⟩ 9 (by decide)).1,
   ((C3_decision_count 0 [1, 2, 3, 4, 5, 6, 7, 8, 9, 10]).2.2.2
     ⟨[1, 2, 3, 4, 5, 6, 7, 8], []⟩ 9 (by decide)).2⟩

/-! ## Queue lemmas and C8 -/

theorem qPushAll_eq (xs : List SamplePair) :
    ∀ q : List SamplePair, qPushAll q xs = q ++ xs := by
  induction xs with
  | nil => intro q; simp [qPushAll]
  | cons x t ih =>
    intro q
    show qPushAll (qPush q x) t = q ++ (x :: t)
    rw [ih (qPush q x), qPush]
    simp

theorem qDrain_all (xs : List SamplePair) : qDrain xs.length xs = (xs, []) := by
  induction xs with
  | nil => rfl
  | cons x t ih =>
    show qDrain (t.length + 1) (x :: t) = (x :: t, [])
    rw [qDrain, qTryPop]
    simp [ih]

/-- C8: pushing `N` pairs into an idle channel and then popping `N`
times returns them in the same order with nothing left; `push` appends
at the tail and always succeeds; a poll on the empty channel reports
nothing found and removes nothing; and the blocking `pop` agrees with
`poll` on every non-empty channel. -/
theorem C8_fifo_preservation :
    (∀ xs : List SamplePair, qDrain xs.length (qPushAll [] xs) = (xs, [])) ∧
    qTryPop [] = ((none : Option SamplePair), ([] : List SamplePair)) ∧
    (∀ (x : SamplePair) (t : List SamplePair),
      qPop (x :: t) = some (x, t) ∧ qTryPop (x :: t) = (some x, t)) ∧
    (∀ (q : List SamplePair) (x : SamplePair), qPush q x = q ++ [x]) := by
  refine ⟨?_, rfl, fun x t => ⟨rfl, rfl⟩, fun q x => rfl⟩
  intro xs
  rw [qPushAll_eq xs [], List.nil_append, qDrain_all]

/-! ## CSV claims -/

/-- C6: with `m = 7` and the single row `0,1,2,3,4,5,6` (7 values), the
producer loop pushes exactly the three pairs (0,1), (2,3), (4,5) and the
leftover value 6 is discarded with the end-of-file notice, not emitted
or padded. -/
theorem C6_odd_count_trailing :
    genRun 7 10 (initGen ["0,1,2,3,4,5,6"]) = ([(0, 1), (2, 3), (4, 5)], [6]) := by
  decide

/-- C9: a cell `std::stoi` parses to `n` is emitted as the byte
`n mod 256` (never skipped, never warned about): in particular `"300"`
parses to 300 and is emitted as 44 with no warning; a cell yields no
value exactly when `std::stoi` throws. -/
theorem C9_narrowing_cast :
    (∀ (cell : String) (n : Int), stoiModel cell = .ok n →
      parseCell cell = some ((n % 256).toNat)) ∧
    stoiModel ("300") = StoiResult.ok 300 ∧
    parseCell ("300") = some 44 ∧
    (parseRow 7 ["300"]).values = [44] ∧
    (parseRow 7 ["300"]).badCells = [] ∧
    (∀ cell : String, parseCell cell = none ↔
      (stoiModel cell = .invalidArgument ∨ stoiModel cell = .outOfRange)) := by
  refine ⟨?_, by decide, by decide, by decide, by decide, ?_⟩
  · intro cell n h
    simp [parseCell, h, toByte]
  · intro cell
    cases h : stoiModel cell <;> simp [parseCell, h]

/-- C9 witness: the general cast fact applied at the cell `"300"`, and
the skip characterization at the unparsable cell `"x"`. -/
theorem C9_narrowing_cast_witness :
    parseCell ("300") = some (((300 : Int) % 256).toNat) ∧
    (parseCell ("x") = none ↔
      (stoiModel ("x") = .invalidArgument ∨ stoiModel ("x") = .outOfRange)) :=
  ⟨C9_narrowing_cast.1 ("300") 300 (by decide), C9_narrowing_cast.2.2.2.2.2 ("x")⟩

theorem rowFold_saturated (m : Int) (hm : 0 < m) :
    ∀ (cells : List String) (vals : List Nat) (bad : List String) (c : Int), m ≤ c →
      cells.foldl (rowStep m) (vals, bad, c) = (vals, bad, c + cells.length) := by
  intro cells
  induction cells with
  | nil =>
    intro vals bad c h
    simp
  | cons cell t ih =>
    intro vals bad c h
    show List.foldl (rowStep m) (rowStep m (vals, bad, c) cell) t = _
    rw [rowStep]
    rw [if_neg (by omega)]
    rw [ih vals bad (c + 1) (by omega)]
    simp only [List.length_cons, Prod.mk.injEq]
    refine ⟨by trivial, by trivial, by omega⟩

theorem rowFold_all (m : Int) (hm : m ≤ 0) :
    ∀ (cells : List String) (vals : List Nat) (bad : List String) (c : Int),
      cells.foldl (rowStep m) (vals, bad, c) =
        (vals ++ valsOf cells, bad ++ badOf cells, c + cells.length) := by
  intro cells
  induction cells with
  | nil =>
    intro vals bad c
    simp [valsOf, badOf]
  | cons cell t ih =>
    intro vals bad c
    show List.foldl (rowStep m) (rowStep m (vals, bad, c) cell) t = _
    rw [rowStep]
    rw [if_pos (Or.inr hm)]
    cases h : parseCell cell with
    | some v =>
      rw [ih (vals ++ [v]) bad (c + 1)]
      simp only [valsOf, badOf, List.filterMap_cons, List.filter_cons, h,
        Option.isNone_some, List.length_cons, Prod.mk.injEq]
      refine ⟨by simp, by simp, by omega⟩
    | none =>
      rw [ih vals (bad ++ [cell]) (c + 1)]
      simp only [valsOf, badOf, List.filterMap_cons, List.filter_cons, h,
        Option.isNone_none, List.length_cons, Prod.mk.injEq]
      refine ⟨by simp, by simp, by omega⟩

theorem rowFold_bounded (m : Int) (hm : 0 < m) :
    ∀ (cells : List String) (vals : List Nat) (bad : List String) (c : Int),
      cells.foldl (rowStep m) (vals, bad, c) =
        (vals ++ valsOf (cells.take (m - c).toNat), bad ++ badOf (cells.take (m - c).toNat),
          c + cells.length) := by
  intro cells
  induction cells with
  | nil =>
    intro vals bad c
    simp [valsOf, badOf]
  | cons cell t ih =>
    intro vals bad c
    by_cases hc : c < m
    · show List.foldl (rowStep m) (rowStep m (vals, bad, c) cell) t = _
      rw [rowStep]
      rw [if_pos (Or.inl hc)]
      have htake : (cell :: t).take (m - c).toNat = cell :: t.take (m - (c + 1)).toNat := by
        have : (m - c).toNat = (m - (c + 1)).toNat + 1 := by omega
        rw [this, List.take_succ_cons]
      cases h : parseCell cell with
      | some v =>
        rw [ih (vals ++ [v]) bad (c + 1), htake]
        simp only [valsOf, badOf, List.filterMap_cons, List.filter_cons, h,
          Option.isNone_some, List.length_cons, Prod.mk.injEq]
        refine ⟨by simp, by simp, by omega⟩
      | none =>
        rw [ih vals (bad ++ [cell]) (c + 1), htake]
        simp only [valsOf, badOf, List.filterMap_cons, List.filter_cons, h,
          Option.isNone_none, List.length_cons, Prod.mk.injEq]
        refine ⟨by simp, by simp, by omega⟩
    · have htake : ((cell :: t).take (m - c).toNat) = [] := by
        have : (m - c).toNat = 0 := by omega
        rw [this, List.take_zero]
      rw [rowFold_saturated m hm (cell :: t) vals bad c (by omega), htake]
      simp only [valsOf, badOf, List.filterMap_nil, List.filter_nil,
        List.append_nil, Prod.mk.injEq]

/-- C10: when `0 < m`, a row's kept values and warned-about cells come
from its first `m` cells alone (later cells are neither parsed, emitted,
nor warned about), and the short-row warning fires exactly when the row
has fewer than `m` cells; when `m ≤ 0`, every cell of the row is used
and no short-row warning fires. -/
theorem C10_column_bound (m : Int) (cells : List String) :
    (0 < m →
      (parseRow m cells).values = valsOf (cells.take m.toNat) ∧
      (parseRow m cells).badCells = badOf (cells.take m.toNat) ∧
      ((parseRow m cells).shortWarn = true ↔ (cells.length : Int) < m)) ∧
    (m ≤ 0 →
      (parseRow m cells).values = valsOf cells ∧
      (parseRow m cells).badCells = badOf cells ∧
      (parseRow m cells).shortWarn = false) := by
  constructor
  · intro hm
    have hfold := rowFold_bounded m hm cells [] [] 0
    rw [parseRow, hfold]
    have hm0 : (m - 0).toNat = m.toNat := by omega
    rw [hm0]
    refine ⟨by simp, by simp, ?_⟩
    simp only [decide_eq_true_eq]
    constructor
    · rintro ⟨-, hlt⟩
      omega
    · intro hlt
      exact ⟨hm, by omega⟩
  · intro hm
    have hfold := rowFold_all m hm cells [] [] 0
    rw [parseRow, hfold]
    refine ⟨by simp, by simp, ?_⟩
    simp only [decide_eq_false_iff_not, not_and]
    intro h0
    omega

/-- C10 witness: the bounded case at `m = 2` on a four-cell row, and the
unbounded case at `m = 0` on a two-cell row. -/
theorem C10_column_bound_witness :
    ((parseRow 2 ["1", "300", "oops", "7"]).values
        = valsOf ((["1", "300", "oops", "7"] : List String).take (2 : Int).toNat) ∧
      (parseRow 2 ["1", "300", "oops", "7"]).badCells
        = badOf ((["1", "300", "oops", "7"] : List String).take (2 : Int).toNat) ∧
      ((parseRow 2 ["1", "300", "oops", "7"]).shortWarn = true ↔
        (((["1", "300", "oops", "7"] : List String).length : Int) < 2)) ∧
      (parseRow 0 ["5", "x"]).values = valsOf ["5", "x"] ∧
      (parseRow 0 ["5", "x"]).badCells = badOf ["5", "x"] ∧
      (parseRow 0 ["5", "x"]).shortWarn = false) := by
  obtain ⟨h1, h2, h3⟩ := (C10_column_bound 2 ["1", "300", "oops", "7"]).1 (by decide)
  obtain ⟨h4, h5, h6⟩ := (C10_column_bound 0 ["5", "x"]).2 (by decide)
  exact ⟨h1, h2, h3, h4, h5, h6⟩

/-! ## Pipeline handshake claims -/

theorem pipeStep_inv (tv : ℚ) (s t : PipeState) (h : PipeStep tv s t)
    (h1 : s.finished = true → s.producerExited = true)
    (h2 : s.producerExited = true → s.pending = [])
    (h3 : s.stopped = true → s.channel = [] ∧ s.finished = true ∧ s.fstate.buffer.length < 9) :
    (t.finished = true → t.producerExited = true) ∧
    (t.producerExited = true → t.pending = []) ∧
    (t.stopped = true → t.channel = [] ∧ t.finished = true ∧ t.fstate.buffer.length < 9) := by
  cases h with
  | produce p rest hp hex =>
    refine ⟨?_, ?_, ?_⟩
    · intro hf
      have hnil := h2 (h1 hf)
      rw [hp] at hnil
      exact absurd hnil (by simp)
    · intro hx
      exact absurd hx (by simp)
    · intro hs
      have hnil := h2 (h1 (h3 hs).2.1)
      rw [hp] at hnil
      exact absurd hnil (by simp)
  | producerExit hp hex =>
    exact ⟨fun _ => rfl, fun _ => rfl, fun hs => h3 hs⟩
  | publishFinished hex hnf =>
    refine ⟨fun _ => rfl, fun _ => h2 hex, ?_⟩
    intro hs
    have hft := (h3 hs).2.1
    rw [hft] at hnf
    exact absurd hnf (by simp)
  | consume p rest hch hst =>
    refine ⟨h1, h2, ?_⟩
    intro hs
    exact absurd hs (by simp)
  | consumerStop hch hf hst =>
    exact ⟨fun _ => h1 hf, h2, fun _ => ⟨rfl, rfl, drainState_length_lt tv s.fstate⟩⟩

theorem pipeReachable_inv (tv : ℚ) (xs : List (Nat × Nat)) (s : PipeState)
    (h : Relation.ReflTransGen (PipeStep tv) (initPipe xs) s) :
    (s.finished = true → s.producerExited = true) ∧
    (s.producerExited = true → s.pending = []) ∧
    (s.stopped = true → s.channel = [] ∧ s.finished = true ∧ s.fstate.buffer.length < 9) := by
  induction h with
  | refl =>
    refine ⟨?_, ?_, ?_⟩ <;> intro hx <;> cases hx
  | tail hsteps hstep ih =>
    exact pipeStep_inv tv _ _ hstep ih.1 ih.2.1 ih.2.2

/-- C4: along every interleaved execution of the pipeline from its
initial state, the finished signal can only be set after the producer's
loop has exited with nothing left to push, and whenever the consumer has
left its processing loop the channel is empty, the finished signal was
observed, and the post-loop drain has left no full window — so the
consumer never stops while an undelivered pair remains in the channel. -/
theorem C4_termination_handshake (tv : ℚ) (xs : List (Nat × Nat)) (s : PipeState)
    (h : PipeReachable tv (initPipe xs) s) :
    (s.finished = true → s.producerExited = true ∧ s.pending = []) ∧
    (s.stopped = true → s.channel = [] ∧ s.finished = true ∧ s.fstate.buffer.length < 9) := by
  obtain ⟨h1, h2, h3⟩ := pipeReachable_inv tv xs s h
  exact ⟨fun hf => ⟨h1 hf, h2 (h1 hf)⟩, h3⟩

/-- C4 witness: the empty-source run producer-exit, publish, stop is
reachable, and in its stopped final state the channel is empty and the
buffer holds no full window. -/
theorem C4_termination_handshake_witness :
    ((⟨[], [], true, true, drainState 0 ⟨[], []⟩, true⟩ : PipeState).channel = []) ∧
    ((⟨[], [], true, true, drainState 0 ⟨[], []⟩, true⟩ : PipeState).fstate.buffer.length < 9) := by
  have hs1 : PipeStep 0 (initPipe []) ⟨[], [], true, false, ⟨[], []⟩, false⟩ :=
    PipeStep.producerExit _ rfl rfl
  have hs2 : PipeStep 0 (⟨[], [], true, false, ⟨[], []⟩, false⟩ : PipeState)
      ⟨[], [], true, true, ⟨[], []⟩, false⟩ :=
    PipeStep.publishFinished _ rfl rfl
  have hs3 : PipeStep 0 (⟨[], [], true, true, ⟨[], []⟩, false⟩ : PipeState)
      ⟨[], [], true, true, drainState 0 ⟨[], []⟩, true⟩ :=
    PipeStep.consumerStop (⟨[], [], true, true, ⟨[], []⟩, false⟩ : PipeState) rfl rfl rfl
  have hreach : PipeReachable 0 (initPipe [])
      ⟨[], [], true, true, drainState 0 ⟨[], []⟩, true⟩ :=
    Relation.ReflTransGen.tail
      (Relation.ReflTransGen.tail (Relation.ReflTransGen.tail Relation.ReflTransGen.refl hs1) hs2)
      hs3
  have h := (C4_termination_handshake 0 [] _ hreach).2 rfl
  exact ⟨h.1, h.2.2⟩

/-- C5: the code publishes the producer-finished signal through a plain
`bool` (`producer_is_finished` in main.cpp, held as `bool&` by the
filter), not through `std::atomic<bool>` or any other fenced primitive;
the claim and the spec require an atomic or equivalently memory-fenced
publication, so the code is in the wrong here. -/
theorem C5_signal_is_plain_bool :
    producerFinishedSignalPrimitive = SignalPrimitive.plainBool ∧
    producerFinishedSignalPrimitive ≠ SignalPrimitive.atomicBool ∧
    producerFinishedSignalPrimitive ≠ SignalPrimitive.otherFenced := by
  refine ⟨rfl, by decide, by decide⟩
